import Mathlib

/-!
Verification of the `auto-kick` Koishi plugin (src/src/index.ts) against its
natural-language specification.  The TypeScript source is shallowly embedded:
classes become structures, methods become pure functions, external platform
calls (member listing, member fetch, kick, RegExp engine) become explicit
environment parameters, and JavaScript numbers used for statistics become
exact rationals.
-/

namespace AutoKick

/- ------------------------------------------------------------------ -/
/- BlacklistManager (src/src/index.ts lines 133-221)                   -/
/- ------------------------------------------------------------------ -/

/-- Modelled from the spec: the external ECMAScript regular-expression
engine used by `new RegExp(keyword, 'i')` followed by `.test(nickname)`
(it is part of the hosting runtime, not of this repository).
`compiles p` tells whether `new RegExp(p, "i")` succeeds (an invalid
pattern makes the constructor throw); `test p s` is the result of
`/p/i.test(s)`: a case-insensitive unanchored search of `p` inside `s`. -/
structure RegexEngine where
  compiles : String → Bool
  test : String → String → Bool

/-- The two nickname match modes of the config (`nicknameMatchMode`). -/
inductive MatchMode where
  | contains
  | regex
deriving DecidableEq

/-- Result of `isNicknameBlacklisted`.  `logs` records the log messages the
method emits while running; the `BlacklistManager` class has no logger in
scope, so the source method cannot and does not log anything. -/
structure NickResult where
  isBlacklisted : Bool
  matchedKeyword : Option String
  logs : List String
deriving DecidableEq

/-- JavaScript `String.prototype.trim`: remove leading and trailing
whitespace characters.  (Defined over the character list so that it is
kernel-computable.) -/
def jsTrim (s : String) : String :=
  ⟨((s.data.dropWhile Char.isWhitespace).reverse.dropWhile Char.isWhitespace).reverse⟩

/-- JavaScript `String.prototype.toLowerCase`, character by character. -/
def jsToLower (s : String) : String :=
  ⟨s.data.map Char.toLower⟩

/-- `sub.isPrefixOf`-based substring occurrence test: JavaScript
`s.includes(sub)` on the underlying character sequences. -/
def containsSeq (sub : List Char) : List Char → Bool
  | [] => sub.isEmpty
  | c :: cs => sub.isPrefixOf (c :: cs) || containsSeq sub cs

/-- JavaScript `s.includes(sub)`. -/
def jsIncludes (s sub : String) : Bool :=
  containsSeq sub.toList s.toList

/-- First-occurrence deduplication: JavaScript `[...new Set(l)]`. -/
def dedupFirst (seen : List String) : List String → List String
  | [] => []
  | x :: xs => if x ∈ seen then dedupFirst seen xs else x :: dedupFirst (x :: seen) xs

/-- The state of the `BlacklistManager` class: the identifier set
(`blacklistSet`, a JS `Set` modelled as its duplicate-free element list)
and the normalized nickname keyword list. -/
structure BlacklistManager where
  blacklistSet : List String
  nicknameBlacklist : List String
deriving DecidableEq

/-- `BlacklistManager.updateBlacklist` (lines 152-166): filters out falsy and
all-whitespace identifiers, trims, deduplicates (set insertion order =
first occurrence); filters and trims the nickname keywords (no dedup). -/
def BlacklistManager.updateBlacklist (blacklist nicknameBlacklist : List String) : BlacklistManager :=
  { blacklistSet :=
      dedupFirst []
        ((blacklist.filter (fun userId => !(userId == "") && decide (0 < (jsTrim userId).length))).map
          jsTrim)
    nicknameBlacklist :=
      (nicknameBlacklist.filter
        (fun keyword => !(keyword == "") && decide (0 < (jsTrim keyword).length))).map jsTrim }

/-- `BlacklistManager.isBlacklisted` (lines 168-170): `Set.has`. -/
def BlacklistManager.isBlacklisted (bm : BlacklistManager) (userId : String) : Bool :=
  bm.blacklistSet.contains userId

/-- The keyword loop of `isNicknameBlacklisted` (lines 177-195).  In regex
mode an invalid pattern (constructor throws) is caught and degrades to the
case-insensitive substring check; the catch block emits no log message. -/
def nickLoop (E : RegexEngine) (mode : MatchMode) (nickname : String) : List String → NickResult
  | [] => ⟨false, none, []⟩
  | keyword :: rest =>
    match mode with
    | .regex =>
      if E.compiles keyword then
        if E.test keyword nickname then ⟨true, some keyword, []⟩
        else nickLoop E mode nickname rest
      else
        if jsIncludes (jsToLower nickname) (jsToLower keyword) then ⟨true, some keyword, []⟩
        else nickLoop E mode nickname rest
    | .contains =>
      if jsIncludes (jsToLower nickname) (jsToLower keyword) then ⟨true, some keyword, []⟩
      else nickLoop E mode nickname rest

/-- `BlacklistManager.isNicknameBlacklisted` (lines 172-198).  The nickname
parameter is `Option String`: `none` models a `null` argument; `some ""`
and `none` are both falsy for the `!nickname` guard. -/
def BlacklistManager.isNicknameBlacklisted (bm : BlacklistManager) (E : RegexEngine)
    (nickname : Option String) (mode : MatchMode) : NickResult :=
  match nickname with
  | none => ⟨false, none, []⟩
  | some n =>
    if n = "" ∨ bm.nicknameBlacklist = [] then ⟨false, none, []⟩
    else nickLoop E mode n bm.nicknameBlacklist

/-- First element of the list satisfying `p` (spec-side helper). -/
def firstMatch (p : String → Bool) : List String → Option String
  | [] => none
  | k :: ks => if p k then some k else firstMatch p ks

/-- Spec-side per-keyword match predicate: Contains mode is case-insensitive
substring; Regex mode is the engine's case-insensitive search, degrading to
the substring check when the pattern does not compile. -/
def keywordMatchesSpec (E : RegexEngine) (mode : MatchMode) (nickname keyword : String) : Bool :=
  match mode with
  | .contains => jsIncludes (jsToLower nickname) (jsToLower keyword)
  | .regex =>
    if E.compiles keyword then E.test keyword nickname
    else jsIncludes (jsToLower nickname) (jsToLower keyword)

/-- Spec-side nickname matcher (refinement target for the source loop):
return the first pattern, in configured order, that matches. -/
def specMatchNickname (E : RegexEngine) (mode : MatchMode) (nickname : String)
    (keywords : List String) : NickResult :=
  match firstMatch (keywordMatchesSpec E mode nickname) keywords with
  | some k => ⟨true, some k, []⟩
  | none => ⟨false, none, []⟩

/-- A regex engine on which every pattern fails to compile; used to exhibit
the silent-degradation path. -/
def failingEngine : RegexEngine :=
  { compiles := fun _ => false, test := fun _ _ => false }

/- ------------------------------------------------------------------ -/
/- Classification in checkAndKickUser (lines 381-399)                  -/
/- ------------------------------------------------------------------ -/

/-- The reason a user is flagged, as computed by `checkAndKickUser`:
either the identifier (QQ number) blacklist, or a nickname keyword. -/
inductive KickReason where
  | qqBlacklist
  | nicknameBlacklist (matchedKeyword : Option String)
deriving DecidableEq

/-- The classification prefix of `checkAndKickUser` (lines 381-399): the
identifier blacklist is consulted first; the nickname blacklist is
consulted only when `!shouldKick && nickname` (nickname truthy). -/
def classifyUser (bm : BlacklistManager) (E : RegexEngine) (mode : MatchMode)
    (userId : String) (nickname : Option String) : Option KickReason :=
  if bm.isBlacklisted userId then some .qqBlacklist
  else
    match nickname with
    | none => none
    | some n =>
      if n = "" then none
      else
        let nicknameCheck := bm.isNicknameBlacklisted E (some n) mode
        if nicknameCheck.isBlacklisted then some (.nicknameBlacklist nicknameCheck.matchedKeyword)
        else none

/- ------------------------------------------------------------------ -/
/- ConcurrencyController (lines 226-261)                               -/
/- ------------------------------------------------------------------ -/

/-- The `ConcurrencyController` class state.  `running` is the multiset of
in-flight task ids (its length is the source's `running` counter) and
`queue` is the FIFO queue of pending wrapped tasks.  `started`, `done`
and `submitted` are history (ghost) sequences recording, in order, which
tasks were admitted to execution, which settled, and which were submitted
through `execute`; they let the FIFO and no-loss properties be stated. -/
structure ConcurrencyController where
  maxConcurrent : Nat
  running : List Nat
  queue : List Nat
  started : List Nat
  done : List Nat
  submitted : List Nat
deriving DecidableEq

/-- A fresh controller (`new ConcurrencyController(maxConcurrent)`). -/
def ConcurrencyController.init (m : Nat) : ConcurrencyController :=
  ⟨m, [], [], [], [], []⟩

/-- `processQueue` (lines 246-260) up to its first suspension: if capacity
remains and the queue is non-empty, shift the queue head and start it.
(The remainder of `processQueue` — decrementing and re-invoking on task
settlement — is `settle` below.) -/
def ConcurrencyController.processQueue (s : ConcurrencyController) : ConcurrencyController :=
  if s.maxConcurrent ≤ s.running.length then s
  else
    match s.queue with
    | [] => s
    | t :: rest =>
      { s with running := s.running ++ [t], queue := rest, started := s.started ++ [t] }

/-- `execute` (lines 232-244): push the wrapped task onto the queue, then
run `processQueue` once. -/
def ConcurrencyController.execute (s : ConcurrencyController) (t : Nat) : ConcurrencyController :=
  ConcurrencyController.processQueue
    { s with queue := s.queue ++ [t], submitted := s.submitted ++ [t] }

/-- The `finally` block of `processQueue` (lines 256-259), run when the
awaited task settles with outcome `ok` (`resolve` on success, `reject` on
failure — the wrapper catches the error, so the block runs either way and
the outcome does not enter the scheduling state): decrement the in-flight
counter, record the task as done and run `processQueue` again. -/
def ConcurrencyController.settle (s : ConcurrencyController) (t : Nat) (_ok : Bool) :
    ConcurrencyController :=
  ConcurrencyController.processQueue
    { s with running := s.running.erase t, done := s.done ++ [t] }

/-- States of a controller reachable by any interleaving of submissions
and settlements of in-flight tasks. -/
inductive CCReach : ConcurrencyController → Prop where
  | init (m : Nat) : CCReach (ConcurrencyController.init m)
  | exec {s : ConcurrencyController} (t : Nat) : CCReach s → CCReach (s.execute t)
  | settle {s : ConcurrencyController} (t : Nat) (ok : Bool) :
      t ∈ s.running → CCReach s → CCReach (s.settle t ok)

/-- Scheduler invariant: the in-flight count never exceeds the limit, the
queue is non-empty only at saturation, admissions are a prefix of the
submission order, and settled plus in-flight tasks are exactly the
admitted ones. -/
def CCInv (s : ConcurrencyController) : Prop :=
  s.running.length ≤ s.maxConcurrent ∧
  (s.queue ≠ [] → s.running.length = s.maxConcurrent) ∧
  s.started ++ s.queue = s.submitted ∧
  (s.done ++ s.running).Perm s.started

/-- Fair completion schedule: keep settling the oldest in-flight task. -/
def ConcurrencyController.drain (s : ConcurrencyController) : Nat → ConcurrencyController
  | 0 => s
  | fuel + 1 =>
    match s.running with
    | [] => s
    | t :: _ => (s.settle t true).drain fuel

/- ------------------------------------------------------------------ -/
/- verifyUserKicked (lines 325-342) and kickUserWithRetry (347-376)    -/
/- ------------------------------------------------------------------ -/

/-- Outcome of the `bot.getGuildMemberList` call inside `verifyUserKicked`:
either it resolves (and `stillPresent` says whether the user id appears in
the returned member list), or it throws. -/
inductive ListCallResult where
  | ok (stillPresent : Bool)
  | throwsErr
deriving DecidableEq

/-- Outcome of the fallback `bot.getGuildMember` call: it resolves with a
value whose truthiness is `truthy` (`!!member`), or it throws an error
whose message marks the user as not found, or it throws any other error. -/
inductive MemberCallResult where
  | okMember (truthy : Bool)
  | throwsNotFound
  | throwsOther
deriving DecidableEq

/-- The external environment of one `verifyUserKicked` call. -/
structure VerifyEnv where
  list : ListCallResult
  member : MemberCallResult
deriving DecidableEq

/-- `verifyUserKicked` (lines 325-342): query the member list; on failure
fall back to a single-member fetch; a not-found error means the user is
gone (`false`); any other fallback error is rethrown.  `Except.ok b`
means the call returns `b` (`true` = user still present), `Except.error`
means it throws. -/
def verifyUserKicked (v : VerifyEnv) : Except Unit Bool :=
  match v.list with
  | .ok b => .ok b
  | .throwsErr =>
    match v.member with
    | .okMember b => .ok b
    | .throwsNotFound => .ok false
    | .throwsOther => .error ()

/-- The external behaviour of attempt `i` of `kickUserWithRetry`: the
`kickGuildMember` call either throws, or succeeds, in which case `v`
drives the subsequent verification (used only when verification is on). -/
inductive AttemptSpec where
  | kickThrows
  | kickOk (v : VerifyEnv)
deriving DecidableEq

/-- Observable trace of one `kickUserWithRetry` call: how many times the
external `kickGuildMember` call was invoked, how many user-visible
warning messages were sent, and the returned boolean. -/
structure KickTrace where
  kicks : Nat
  warnings : Nat
  result : Bool
deriving DecidableEq

/-- The retry loop of `kickUserWithRetry` (lines 348-374), iteration `i`
with `fuel = retryAttempts - i` remaining iterations; `fuel = 0` is loop
exit (`return false`, line 375).  Branches: a throwing kick is caught —
wait and continue if attempts remain, else send the warning; with
verification on, a verified-gone user returns `true`, a still-present
user on the final attempt sends the warning and returns `false`, and on
earlier attempts the thrown marker error is caught like a kick failure; a
verification call that itself throws is caught by the same handler.
Verification off returns `true` right after the kick call. -/
def kickLoop (verif : Bool) (retryAttempts : Nat) (env : Nat → AttemptSpec) :
    Nat → Nat → KickTrace
  | 0, _ => ⟨0, 0, false⟩
  | fuel + 1, i =>
    match env i with
    | .kickThrows =>
      let r := kickLoop verif retryAttempts env fuel (i + 1)
      if i + 1 < retryAttempts then ⟨r.kicks + 1, r.warnings, r.result⟩
      else ⟨r.kicks + 1, r.warnings + 1, r.result⟩
    | .kickOk v =>
      if verif then
        match verifyUserKicked v with
        | .ok false => ⟨1, 0, true⟩
        | .ok true =>
          if i = retryAttempts - 1 then ⟨1, 1, false⟩
          else
            let r := kickLoop verif retryAttempts env fuel (i + 1)
            ⟨r.kicks + 1, r.warnings, r.result⟩
        | .error _ =>
          let r := kickLoop verif retryAttempts env fuel (i + 1)
          if i + 1 < retryAttempts then ⟨r.kicks + 1, r.warnings, r.result⟩
          else ⟨r.kicks + 1, r.warnings + 1, r.result⟩
      else ⟨1, 0, true⟩

/-- `kickUserWithRetry` (lines 347-376): run the loop from `i = 0` with
`config.retryAttempts` iterations available. -/
def kickUserWithRetry (verif : Bool) (retryAttempts : Nat) (env : Nat → AttemptSpec) : KickTrace :=
  kickLoop verif retryAttempts env retryAttempts 0

/- ------------------------------------------------------------------ -/
/- Stats (lines 34-40, 204-212) and scanExistingMembers (472-550)      -/
/- ------------------------------------------------------------------ -/

/-- The `Stats` record.  `averageScanTime` is a JavaScript number computed
by division; it is modelled as an exact rational. -/
structure Stats where
  totalScanned : Nat
  totalKicked : Nat
  totalFailed : Nat
  lastScanTime : Nat
  averageScanTime : ℚ
deriving DecidableEq

/-- `BlacklistManager.updateStats` (lines 204-212). -/
def Stats.updateStats (s : Stats) (scanned kicked failed scanTime : Nat) : Stats :=
  let totalScanned := s.totalScanned + scanned
  let totalScans : ℚ := max 1 ((totalScanned : ℚ) / (max 1 (scanned : ℚ)))
  { totalScanned := totalScanned
    totalKicked := s.totalKicked + kicked
    totalFailed := s.totalFailed + failed
    lastScanTime := scanTime
    averageScanTime := (s.averageScanTime * (totalScans - 1) + (scanTime : ℚ)) / totalScans }

/-- A member record as consumed by the scan: identifier, the display name
resolved by `getUserNickname` (`none` when every candidate field is
empty), and the bot flag. -/
structure Member where
  id : String
  nickname : Option String
  isBot : Bool
deriving DecidableEq

/-- The per-member classification of the scan loop (lines 504-513):
identifier blacklist first, `else if (nickname)` the nickname check. -/
def memberShouldKick (bm : BlacklistManager) (E : RegexEngine) (mode : MatchMode)
    (m : Member) : Bool :=
  if bm.isBlacklisted m.id then true
  else
    match m.nickname with
    | none => false
    | some n =>
      if n = "" then false
      else (bm.isNicknameBlacklisted E (some n) mode).isBlacklisted

/-- The counting loop of `scanExistingMembers` (lines 491-533) over the
filtered member list.  Batch boundaries and the pacing pauses only insert
delays and do not change what is counted, so the members are traversed in
listing order; `kickRes` gives the result of `checkAndKickUser` for each
flagged member.  Returns `(scanned, blacklisted, kicked, failedKick)`. -/
def scanLoop (bm : BlacklistManager) (E : RegexEngine) (mode : MatchMode)
    (kickRes : String → Bool) : List Member → Nat × Nat × Nat × Nat
  | [] => (0, 0, 0, 0)
  | m :: ms =>
    let rest := scanLoop bm E mode kickRes ms
    if memberShouldKick bm E mode m then
      if kickRes m.id then (rest.1 + 1, rest.2.1 + 1, rest.2.2.1 + 1, rest.2.2.2)
      else (rest.1 + 1, rest.2.1 + 1, rest.2.2.1, rest.2.2.2 + 1)
    else (rest.1 + 1, rest.2.1, rest.2.2.1, rest.2.2.2)

/-- The scan-relevant part of the plugin config. -/
structure ScanConfig where
  enableJoinScan : Bool
  skipBotMembers : Bool
  enableStats : Bool
  nicknameMatchMode : MatchMode
deriving DecidableEq

/-- Result of one `scanExistingMembers` call: the stats value after the
scan, the counters the scan reports, and whether the scan aborted in the
outer catch (the scan-level failure logged at line 548). -/
structure ScanOutcome where
  stats : Stats
  scanned : Nat
  blacklisted : Nat
  kicked : Nat
  failedKick : Nat
  scanFailed : Bool
deriving DecidableEq

/-- `scanExistingMembers` (lines 472-550).  `listing` is the outcome of the
initial `bot.getGuildMemberList` call (the first statement inside the
`try`); if it throws, control jumps to the outer catch with nothing done.
Otherwise bots are optionally filtered out, the counting loop runs, and
the stats are folded in only when `enableStats`. -/
def scanExistingMembers (cfg : ScanConfig) (bm : BlacklistManager) (E : RegexEngine)
    (kickRes : String → Bool) (stats : Stats) (listing : Except Unit (List Member))
    (scanTime : Nat) : ScanOutcome :=
  if !cfg.enableJoinScan then ⟨stats, 0, 0, 0, 0, false⟩
  else
    match listing with
    | .error _ => ⟨stats, 0, 0, 0, 0, true⟩
    | .ok memberList =>
      let filteredMembers :=
        if cfg.skipBotMembers then memberList.filter (fun m => !m.isBot) else memberList
      let c := scanLoop bm E cfg.nicknameMatchMode kickRes filteredMembers
      let stats' :=
        if cfg.enableStats then stats.updateStats c.1 c.2.2.1 c.2.2.2 scanTime else stats
      ⟨stats', c.1, c.2.1, c.2.2.1, c.2.2.2, false⟩

/- ------------------------------------------------------------------ -/
/- Delayed-recheck timers and the dispose handler (553-644)            -/
/- ------------------------------------------------------------------ -/

/-- One entry of `newUserNicknameCache` (line 272), keyed by userId. -/
structure RecheckEntry where
  nickname : String
  guildId : String
  joinTime : Nat
deriving DecidableEq

/-- One armed `setTimeout` created at lines 624-626; its closure captures
the user, guild and join-time nickname with which `delayedNicknameCheck`
will be invoked when it fires. -/
structure RecheckTimer where
  userId : String
  guildId : String
  originalNickname : String
deriving DecidableEq

/-- The timer-related state owned by one `apply` instance: the
`newUserNicknameCache` map, the armed delayed-recheck timeouts (the
source keeps no handle to them), and whether the 60 s blacklist-refresh
interval (line 275) is still active. -/
structure PluginState where
  newUserNicknameCache : List (String × RecheckEntry)
  timers : List RecheckTimer
  intervalActive : Bool
deriving DecidableEq

/-- JavaScript `Map.prototype.set`: replace the value under an existing
key, else append a new entry. -/
def mapSet (k : String) (v : RecheckEntry) :
    List (String × RecheckEntry) → List (String × RecheckEntry)
  | [] => [(k, v)]
  | (k', v') :: rest => if k' = k then (k, v) :: rest else (k', v') :: mapSet k v rest

/-- The fresh state of `apply`: empty cache, no timers, interval armed. -/
def PluginState.initial : PluginState :=
  ⟨[], [], true⟩

/-- The delayed-check registration branch of the `guild-member-added`
handler (lines 615-627): `newUserNicknameCache.set(userId, ...)` followed
by `setTimeout(() => delayedNicknameCheck(userId, guildId, nickname, bot),
delayedCheckTime)`.  The source never calls `clearTimeout`, so the new
timer is appended and any previously armed timer for the same user stays
armed. -/
def registerRecheck (s : PluginState) (userId guildId nickname : String) (now : Nat) :
    PluginState :=
  { s with
    newUserNicknameCache := mapSet userId ⟨nickname, guildId, now⟩ s.newUserNicknameCache
    timers := s.timers ++ [⟨userId, guildId, nickname⟩] }

/-- The `dispose` handler (lines 641-644): `clearInterval(configCheckInterval)`
and `newUserNicknameCache.clear()`.  No recheck timeout is cleared: the
source holds no handle to them. -/
def dispose (s : PluginState) : PluginState :=
  { s with intervalActive := false, newUserNicknameCache := [] }

/- ------------------------------------------------------------------ -/
/- Theorems                                                            -/
/- ------------------------------------------------------------------ -/

/-- Membership in a first-occurrence deduplication. -/
theorem mem_dedupFirst (x : String) (l : List String) :
    ∀ seen, x ∈ dedupFirst seen l ↔ x ∈ l ∧ x ∉ seen := by
  induction l with
  | nil => intro seen; simp [dedupFirst]
  | cons a as ih =>
    intro seen
    by_cases ha : a ∈ seen <;>
      simp only [dedupFirst, ha, if_true, if_false, ih, List.mem_cons] <;>
      constructor
    · rintro ⟨hx, hs⟩; exact ⟨Or.inr hx, hs⟩
    · rintro ⟨hx | hx, hs⟩
      · exact absurd (hx ▸ ha) hs
      · exact ⟨hx, hs⟩
    · rintro (rfl | ⟨hx, hs⟩)
      · exact ⟨Or.inl rfl, ha⟩
      · simp only [List.mem_cons, not_or] at hs
        exact ⟨Or.inr hx, hs.2⟩
    · rintro ⟨rfl | hx, hs⟩
      · exact Or.inl rfl
      · by_cases hxa : x = a
        · exact Or.inl hxa
        · exact Or.inr ⟨hx, by simp [hs, hxa]⟩

/-- A string has positive length iff it is not the empty string. -/
theorem string_length_pos_iff (s : String) : 0 < s.length ↔ s ≠ "" := by
  obtain ⟨data⟩ := s
  cases data <;> simp [String.length, String.ext_iff]

/-- Characterization of the identifier set built by `updateBlacklist`. -/
theorem isBlacklisted_updateBlacklist_iff (bl nb : List String) (id : String) :
    (BlacklistManager.updateBlacklist bl nb).isBlacklisted id = true ↔
      ∃ e, e ∈ bl ∧ jsTrim e ≠ "" ∧ jsTrim e = id := by
  simp only [BlacklistManager.isBlacklisted, BlacklistManager.updateBlacklist, List.contains,
    List.elem_eq_mem, decide_eq_true_eq, mem_dedupFirst, List.mem_map, List.mem_filter,
    List.not_mem_nil, not_false_iff, and_true, Bool.and_eq_true, Bool.not_eq_true',
    beq_eq_false_iff_ne, decide_eq_true_eq]
  constructor
  · rintro ⟨e, ⟨he, hne, hp⟩, rfl⟩
    exact ⟨e, he, (string_length_pos_iff _).1 hp, rfl⟩
  · rintro ⟨e, he, ht, rfl⟩
    refine ⟨e, ⟨he, fun h => ht ?_, (string_length_pos_iff _).2 ht⟩, rfl⟩
    rw [h]; decide

/-- C5: after `updateBlacklist`, `isBlacklisted id` holds iff `id` is the
trimmed form of some entry of the loaded list whose trimmed form is
non-empty; whitespace on entries and duplicate entries in the source list
therefore never change a query's outcome (the defining condition only
mentions trimmed entries, and duplicating the whole list leaves every
query's result unchanged). -/
theorem blacklist_membership_characterization (bl nb : List String) (id : String) :
    ((BlacklistManager.updateBlacklist bl nb).isBlacklisted id = true ↔
      ∃ e, e ∈ bl ∧ jsTrim e ≠ "" ∧ jsTrim e = id) ∧
    (BlacklistManager.updateBlacklist (bl ++ bl) nb).isBlacklisted id =
      (BlacklistManager.updateBlacklist bl nb).isBlacklisted id := by
  refine ⟨isBlacklisted_updateBlacklist_iff bl nb id, ?_⟩
  have h1 := isBlacklisted_updateBlacklist_iff (bl ++ bl) nb id
  have h2 := isBlacklisted_updateBlacklist_iff bl nb id
  have hmem : (∃ e, e ∈ bl ++ bl ∧ jsTrim e ≠ "" ∧ jsTrim e = id) ↔
      ∃ e, e ∈ bl ∧ jsTrim e ≠ "" ∧ jsTrim e = id := by
    simp only [List.mem_append, or_self]
  have key := h1.trans (hmem.trans h2.symm)
  cases hc : (BlacklistManager.updateBlacklist (bl ++ bl) nb).isBlacklisted id <;>
    cases hd : (BlacklistManager.updateBlacklist bl nb).isBlacklisted id
  · rfl
  · exact absurd (key.mpr hd) (by simp [hc])
  · exact absurd (key.mp hc) (by simp [hd])
  · rfl

/-- C4: when the exact-identifier blacklist matches, classification reports
the identifier reason even if a nickname pattern would also match: the
identifier check is performed first and short-circuits the nickname
check. -/
theorem identifier_priority (bm : BlacklistManager) (E : RegexEngine) (mode : MatchMode)
    (userId n : String) (hid : bm.isBlacklisted userId = true)
    (hnick : (bm.isNicknameBlacklisted E (some n) mode).isBlacklisted = true) :
    classifyUser bm E mode userId (some n) = some KickReason.qqBlacklist := by
  simp [classifyUser, hid]

/-- Witness for `identifier_priority`: user `111` is on the identifier
blacklist and the nickname `xadmy` matches the `adm` keyword, and the
reported reason is the identifier blacklist. -/
theorem identifier_priority_witness :
    (BlacklistManager.updateBlacklist ["111"] ["adm"]).isBlacklisted "111" = true ∧
    ((BlacklistManager.updateBlacklist ["111"] ["adm"]).isNicknameBlacklisted failingEngine
      (some "xadmy") .contains).isBlacklisted = true ∧
    classifyUser (BlacklistManager.updateBlacklist ["111"] ["adm"]) failingEngine .contains
      "111" (some "xadmy") = some KickReason.qqBlacklist :=
  ⟨by decide, by decide,
    identifier_priority (BlacklistManager.updateBlacklist ["111"] ["adm"]) failingEngine
      .contains "111" "xadmy" (by decide) (by decide)⟩

/-- C10: a `null` or empty nickname, or an empty loaded pattern list, makes
`isNicknameBlacklisted` report a non-match (no matched keyword, no log),
in every match mode. -/
theorem nickname_nonmatch_on_empty (bm : BlacklistManager) (E : RegexEngine) (mode : MatchMode)
    (nick : Option String)
    (h : nick = none ∨ nick = some "" ∨ bm.nicknameBlacklist = []) :
    bm.isNicknameBlacklisted E nick mode = ⟨false, none, []⟩ := by
  rcases h with h | h | h
  · subst h; rfl
  · subst h; simp [BlacklistManager.isNicknameBlacklisted]
  · cases nick with
    | none => rfl
    | some n => simp [BlacklistManager.isNicknameBlacklisted, h]

/-- Witness for `nickname_nonmatch_on_empty`: an empty pattern list with a
non-empty nickname yields a non-match. -/
theorem nickname_nonmatch_on_empty_witness :
    (BlacklistManager.mk ["111"] []).nicknameBlacklist = [] ∧
    (BlacklistManager.mk ["111"] []).isNicknameBlacklisted failingEngine (some "boss") .regex =
      ⟨false, none, []⟩ :=
  ⟨rfl, nickname_nonmatch_on_empty (BlacklistManager.mk ["111"] []) failingEngine .regex
    (some "boss") (Or.inr (Or.inr rfl))⟩

/-- C3 (failing input): two joins of the same user `u1` in guild `g1`
while the first delayed recheck is still pending.  The cache entry is
replaced (`Map.set`), but the first `setTimeout` is never cancelled, so
TWO one-shot timers stay armed for the same (guildId, userId); each will
invoke `delayedNicknameCheck` with its captured arguments when it fires,
so the superseded registration still causes a second processing of the
user — contradicting the claimed at-most-one-pending-recheck invariant. -/
theorem double_join_arms_two_timers :
    (registerRecheck (registerRecheck PluginState.initial "u1" "g1" "alice" 0)
        "u1" "g1" "bob" 1).timers =
      [⟨"u1", "g1", "alice"⟩, ⟨"u1", "g1", "bob"⟩] ∧
    (registerRecheck (registerRecheck PluginState.initial "u1" "g1" "alice" 0)
        "u1" "g1" "bob" 1).newUserNicknameCache = [("u1", ⟨"bob", "g1", 1⟩)] := by
  decide

/-- C9 (failing input): dispose while one delayed recheck is outstanding.
The handler clears the config-refresh interval and empties the cache, but
the armed recheck timeout survives it (the source retains no handle to
it and never calls `clearTimeout`), so `delayedNicknameCheck` still runs
after disposal — contradicting the claim that no delayed recheck runs
after the dispose handler. -/
theorem dispose_leaves_recheck_timer_armed :
    dispose (registerRecheck PluginState.initial "u2" "g2" "carol" 5) =
      { newUserNicknameCache := [], timers := [⟨"u2", "g2", "carol"⟩],
        intervalActive := false } := by
  decide

/-- C8: if the member-listing call at the start of a scan throws, the scan
aborts as a scan-level failure: zero members are scanned, classified or
kicked, and the Stats value is returned entirely unchanged. -/
theorem scan_abort_on_listing_failure (cfg : ScanConfig) (bm : BlacklistManager)
    (E : RegexEngine) (kickRes : String → Bool) (stats : Stats) (t : Nat)
    (h : cfg.enableJoinScan = true) :
    scanExistingMembers cfg bm E kickRes stats (.error ()) t =
      ⟨stats, 0, 0, 0, 0, true⟩ := by
  simp [scanExistingMembers, h]

/-- Witness for `scan_abort_on_listing_failure` at a concrete config and a
concrete non-zero Stats value. -/
theorem scan_abort_on_listing_failure_witness :
    (ScanConfig.mk true true true .contains).enableJoinScan = true ∧
    scanExistingMembers (ScanConfig.mk true true true .contains)
        (BlacklistManager.mk ["9"] []) failingEngine (fun _ => true)
        (Stats.mk 4 2 1 100 50) (.error ()) 77 =
      ⟨Stats.mk 4 2 1 100 50, 0, 0, 0, 0, true⟩ :=
  ⟨rfl, scan_abort_on_listing_failure (ScanConfig.mk true true true .contains)
    (BlacklistManager.mk ["9"] []) failingEngine (fun _ => true)
    (Stats.mk 4 2 1 100 50) 77 rfl⟩

/-- The source keyword loop agrees with the spec-side first-match
formulation on every input. -/
theorem nickLoop_eq_specMatchNickname (E : RegexEngine) (mode : MatchMode) (n : String) :
    ∀ ks : List String, nickLoop E mode n ks = specMatchNickname E mode n ks := by
  intro ks
  induction ks with
  | nil => cases mode <;> rfl
  | cons k rest ih =>
    cases mode with
    | contains =>
      simp only [nickLoop, specMatchNickname, firstMatch, keywordMatchesSpec]
      split <;> simp_all [specMatchNickname]
    | regex =>
      simp only [nickLoop, specMatchNickname, firstMatch, keywordMatchesSpec]
      by_cases hc : E.compiles k = true
      · simp only [hc, if_true]
        split <;> simp_all [specMatchNickname]
      · simp only [hc, if_false, Bool.false_eq_true]
        split <;> simp_all [specMatchNickname]

/-- C6 (counterexample to the claim as stated): on an engine for which
every pattern fails to compile, the pattern `abc` degrades to the
case-insensitive substring check — it matches the nickname `XABCy` and is
returned as the matched keyword without raising — yet the list of emitted
log messages is empty: the degradation is NOT logged (the catch block at
lines 189-194 contains no logger call, and the `BlacklistManager` class
has no logger in scope), refuting the "this degradation is logged" part
of the claim. -/
theorem regex_degradation_unlogged :
    (BlacklistManager.mk [] ["abc"]).isNicknameBlacklisted failingEngine (some "XABCy") .regex =
      ⟨true, some "abc", []⟩ ∧
    failingEngine.compiles "abc" = false := by
  decide

/-- C6 (amended): `isNicknameBlacklisted` returns the first pattern in
configured order that matches as `matchedKeyword`; in contains mode a
keyword matches by case-insensitive substring; in regex mode it matches
by the engine's case-insensitive (`i`-flag) unanchored search when the
pattern compiles and degrades to the case-insensitive substring check
when it does not, without raising; matching is insensitive to the case of
the nickname in contains mode; and the method logs nothing — the
degradation is silent. -/
theorem nickname_match_amended :
    (∀ (E : RegexEngine) (mode : MatchMode) (n : String) (bm : BlacklistManager), n ≠ "" →
      bm.isNicknameBlacklisted E (some n) mode = specMatchNickname E mode n bm.nicknameBlacklist) ∧
    (∀ (E : RegexEngine) (n n' : String) (ks : List String), jsToLower n = jsToLower n' →
      nickLoop E .contains n ks = nickLoop E .contains n' ks) ∧
    (∀ (E : RegexEngine) (mode : MatchMode) (nick : Option String) (bm : BlacklistManager),
      (bm.isNicknameBlacklisted E nick mode).logs = []) := by
  refine ⟨?_, ?_, ?_⟩
  · intro E mode n bm hn
    simp only [BlacklistManager.isNicknameBlacklisted]
    by_cases hks : bm.nicknameBlacklist = []
    · simp [hn, hks, specMatchNickname, firstMatch]
    · simp [hn, hks, nickLoop_eq_specMatchNickname]
  · intro E n n' ks h
    induction ks with
    | nil => rfl
    | cons k rest ih => simp only [nickLoop, h, ih]
  · intro E mode nick bm
    have hlogs : ∀ ks, (nickLoop E mode (nick.getD "") ks).logs = [] := by
      intro ks
      induction ks with
      | nil => cases mode <;> rfl
      | cons k rest ih =>
        cases mode with
        | contains =>
          simp only [nickLoop]
          split
          · rfl
          · exact ih
        | regex =>
          simp only [nickLoop]
          split
          · split
            · rfl
            · exact ih
          · split
            · rfl
            · exact ih
    cases nick with
    | none => rfl
    | some n =>
      simp only [BlacklistManager.isNicknameBlacklisted]
      split
      · rfl
      · exact hlogs bm.nicknameBlacklist

/-- Witness for `nickname_match_amended` at concrete inputs: the loop on
the keyword list `["b"]` equals the spec-side first-match result for the
nickname `Ab`, and contains-mode matching does not distinguish `AB` from
`ab`. -/
theorem nickname_match_amended_witness :
    (BlacklistManager.mk [] ["b"]).isNicknameBlacklisted failingEngine (some "Ab") .contains =
      specMatchNickname failingEngine .contains "Ab" ["b"] ∧
    nickLoop failingEngine .contains "AB" ["b"] = nickLoop failingEngine .contains "ab" ["b"] :=
  ⟨nickname_match_amended.1 failingEngine .contains "Ab" (BlacklistManager.mk [] ["b"])
      (by decide),
    nickname_match_amended.2.1 failingEngine "AB" "ab" ["b"] (by decide)⟩

/-- Every iteration of the retry loop performs exactly one kick call, so
the number of kick calls is bounded by the remaining iteration budget. -/
theorem kickLoop_kicks_le (verif : Bool) (m : Nat) (env : Nat → AttemptSpec) :
    ∀ fuel i, (kickLoop verif m env fuel i).kicks ≤ fuel := by
  intro fuel
  induction fuel with
  | zero => intro i; simp [kickLoop]
  | succ f ih =>
    intro i
    cases henv : env i with
    | kickThrows =>
      simp only [kickLoop, henv]
      split <;> exact Nat.succ_le_succ (ih (i + 1))
    | kickOk v =>
      cases hres : verifyUserKicked v with
      | ok b =>
        cases b with
        | false =>
          simp only [kickLoop, henv, hres]
          split <;> exact Nat.succ_le_succ (Nat.zero_le f)
        | true =>
          simp only [kickLoop, henv, hres]
          split
          · split
            · exact Nat.succ_le_succ (Nat.zero_le f)
            · exact Nat.succ_le_succ (ih (i + 1))
          · exact Nat.succ_le_succ (Nat.zero_le f)
      | error e =>
        simp only [kickLoop, henv, hres]
        split
        · split <;> exact Nat.succ_le_succ (ih (i + 1))
        · exact Nat.succ_le_succ (Nat.zero_le f)

/-- Under an environment in which no attempt ever verifies the user as
gone, the retry loop performs one kick per remaining iteration, sends the
warning exactly once (on the final attempt) and returns `false`. -/
theorem kickLoop_all_attempts_fail (n : Nat) (env : Nat → AttemptSpec)
    (hfail : ∀ i, i < n → ∀ v, env i = .kickOk v → verifyUserKicked v ≠ .ok false) :
    ∀ fuel i, i + fuel = n → 0 < fuel → kickLoop true n env fuel i = ⟨fuel, 1, false⟩ := by
  intro fuel
  induction fuel with
  | zero => intro i _ h; exact absurd h (by simp)
  | succ f ih =>
    intro i htot _
    have hi : i < n := by omega
    have hrest : f = 0 → kickLoop true n env f (i + 1) = ⟨0, 0, false⟩ := by
      intro h0; subst h0; rfl
    have hrec : 0 < f → kickLoop true n env f (i + 1) = ⟨f, 1, false⟩ := fun hf =>
      ih (i + 1) (by omega) hf
    cases henv : env i with
    | kickThrows =>
      by_cases hlt : i + 1 < n
      · have hf : 0 < f := by omega
        simp [kickLoop, henv, hlt, hrec hf]
      · have hf : f = 0 := by omega
        simp [kickLoop, henv, hlt, hrest hf, hf]
    | kickOk v =>
      have hne := hfail i hi v henv
      cases hres : verifyUserKicked v with
      | ok b =>
        cases b with
        | false => exact absurd hres hne
        | true =>
          by_cases hlast : i = n - 1
          · have hf : f = 0 := by omega
            subst hlast
            simp [kickLoop, henv, hres, hf]
          · have hf : 0 < f := by omega
            simp [kickLoop, henv, hres, hlast, hrec hf]
      | error e =>
        by_cases hlt : i + 1 < n
        · have hf : 0 < f := by omega
          simp [kickLoop, henv, hres, hlt, hrec hf]
        · have hf : f = 0 := by omega
          simp [kickLoop, henv, hres, hlt, hrest hf, hf]

/-- C2: `kickUserWithRetry` invokes the external `kickGuildMember` call at
most `retryAttempts` times in every environment and mode; and when
verification is enabled and no attempt ever confirms the user gone (the
user is still present after the final attempt), it returns `false` after
exactly `retryAttempts` kick calls, having sent exactly one user-visible
warning message. -/
theorem kick_retry_bound_and_terminal_failure (n : Nat) (env : Nat → AttemptSpec)
    (hn : 0 < n)
    (hfail : ∀ i, i < n → ∀ v, env i = .kickOk v → verifyUserKicked v ≠ .ok false) :
    (∀ (verif : Bool) (m : Nat) (e : Nat → AttemptSpec),
      (kickUserWithRetry verif m e).kicks ≤ m) ∧
    kickUserWithRetry true n env = ⟨n, 1, false⟩ :=
  ⟨fun verif m e => kickLoop_kicks_le verif m e m 0,
    kickLoop_all_attempts_fail n env hfail n 0 (Nat.zero_add n) hn⟩

/-- Witness for `kick_retry_bound_and_terminal_failure`: two attempts, the
kick call reports success each time but verification finds the user still
present; the result is `false` with two kick calls and one warning. -/
theorem kick_retry_witness :
    (0 : Nat) < 2 ∧
    kickUserWithRetry true 2 (fun _ => .kickOk ⟨.ok true, .okMember true⟩) = ⟨2, 1, false⟩ :=
  ⟨by decide,
    (kick_retry_bound_and_terminal_failure 2 (fun _ => .kickOk ⟨.ok true, .okMember true⟩)
      (by decide)
      (fun i _ v hv => by
        injection hv with h
        subst h
        simp [verifyUserKicked])).2⟩

/-- C7: when the member-list query throws and the fallback single-member
query also throws without a not-found indication, `verifyUserKicked`
cannot confirm membership and itself throws (it never reports the user
absent, so the attempt is never treated as a success); inside the retry
loop with verification enabled, such an attempt consumes one kick call
and defers to the next attempt while attempts remain, and on the final
attempt the loop sends the warning and returns `false` (the pipeline
reports failure). -/
theorem verify_error_conservative (v : VerifyEnv) (hl : v.list = .throwsErr)
    (hm : v.member = .throwsOther) (n i fuel : Nat) (env : Nat → AttemptSpec)
    (henv : env i = .kickOk v) :
    verifyUserKicked v = .error () ∧
    (i + 1 < n →
      kickLoop true n env (fuel + 1) i =
        ⟨(kickLoop true n env fuel (i + 1)).kicks + 1,
          (kickLoop true n env fuel (i + 1)).warnings,
          (kickLoop true n env fuel (i + 1)).result⟩) ∧
    (i + 1 = n → kickLoop true n env 1 i = ⟨1, 1, false⟩) := by
  obtain ⟨l, mr⟩ := v
  simp only at hl hm
  subst hl
  subst hm
  refine ⟨rfl, ?_, ?_⟩
  · intro hlt
    simp [kickLoop, henv, verifyUserKicked, hlt]
  · intro hlast
    have hnlt : ¬ i + 1 < n := by omega
    simp [kickLoop, henv, verifyUserKicked, hnlt]

/-- Witness for `verify_error_conservative`: a verification environment
whose list and member queries both fail inconclusively; on the single
configured attempt the loop yields one kick, one warning and `false`. -/
theorem verify_error_conservative_witness :
    verifyUserKicked ⟨.throwsErr, .throwsOther⟩ = .error () ∧
    kickLoop true 1 (fun _ => .kickOk ⟨.throwsErr, .throwsOther⟩) 1 0 = ⟨1, 1, false⟩ :=
  ⟨(verify_error_conservative ⟨.throwsErr, .throwsOther⟩ rfl rfl 1 0 0
      (fun _ => .kickOk ⟨.throwsErr, .throwsOther⟩) rfl).1,
    (verify_error_conservative ⟨.throwsErr, .throwsOther⟩ rfl rfl 1 0 0
      (fun _ => .kickOk ⟨.throwsErr, .throwsOther⟩) rfl).2.2 rfl⟩

/-- `execute` preserves the scheduler invariant. -/
theorem CCInv_execute {s : ConcurrencyController} (h : CCInv s) (t : Nat) :
    CCInv (s.execute t) := by
  obtain ⟨m, R, Q, St, D, Sub⟩ := s
  obtain ⟨h1, h2, h3, h4⟩ := h
  simp only at h1 h2 h3 h4
  simp only [ConcurrencyController.execute, ConcurrencyController.processQueue]
  by_cases hfull : m ≤ R.length
  · simp only [hfull, if_true]
    exact ⟨h1, fun _ => Nat.le_antisymm h1 hfull,
      by rw [← List.append_assoc, h3], h4⟩
  · have hQ : Q = [] := by
      by_contra hne
      exact hfull (h2 hne).ge
    subst hQ
    simp only [hfull, if_false, List.nil_append]
    refine ⟨?_, ?_, ?_, ?_⟩
    · simp only [List.length_append, List.length_cons, List.length_nil]
      omega
    · intro hc
      exact absurd rfl hc
    · simp only [List.append_nil] at h3
      simp [h3]
    · rw [← List.append_assoc]
      exact h4.append_right [t]

/-- `settle` preserves the scheduler invariant for an in-flight task. -/
theorem CCInv_settle {s : ConcurrencyController} (h : CCInv s) {t : Nat}
    (ht : t ∈ s.running) (ok : Bool) : CCInv (s.settle t ok) := by
  obtain ⟨m, R, Q, St, D, Sub⟩ := s
  obtain ⟨h1, h2, h3, h4⟩ := h
  simp only at h1 h2 h3 h4 ht
  have hlen : (R.erase t).length + 1 = R.length := List.length_erase_add_one ht
  have hperm2 : ((D ++ [t]) ++ R.erase t).Perm St := by
    have hstep : ((D ++ [t]) ++ R.erase t).Perm (D ++ R) := by
      rw [List.append_assoc]
      exact (List.Perm.append_left D (List.perm_cons_erase ht)).symm
    exact hstep.trans h4
  simp only [ConcurrencyController.settle, ConcurrencyController.processQueue]
  by_cases hfull : m ≤ (R.erase t).length
  · simp only [hfull, if_true]
    exact ⟨by dsimp only; omega, fun _ => by dsimp only; omega, h3, hperm2⟩
  · cases Q with
    | nil =>
      simp only [hfull, if_false]
      exact ⟨by dsimp only; omega, fun hc => absurd rfl hc, h3, hperm2⟩
    | cons q qs =>
      have hR : R.length = m := h2 (by simp)
      simp only [hfull, if_false]
      refine ⟨?_, ?_, ?_, ?_⟩
      · simp only [List.length_append, List.length_cons, List.length_nil]
        omega
      · intro _
        simp only [List.length_append, List.length_cons, List.length_nil]
        omega
      · rw [List.append_assoc, List.singleton_append]
        exact h3
      · rw [← List.append_assoc]
        exact hperm2.append_right [q]

/-- The scheduler invariant holds in every reachable state. -/
theorem CCReach_inv {s : ConcurrencyController} (h : CCReach s) : CCInv s := by
  induction h with
  | init m =>
    exact ⟨by simp [ConcurrencyController.init],
      by simp [ConcurrencyController.init], rfl, List.Perm.refl _⟩
  | exec t _ ih => exact CCInv_execute ih t
  | settle t ok ht _ ih => exact CCInv_settle ih ht ok

/-- `settle` never changes the configured limit. -/
theorem settle_max (s : ConcurrencyController) (t : Nat) (ok : Bool) :
    (s.settle t ok).maxConcurrent = s.maxConcurrent := by
  obtain ⟨m, R, Q, St, D, Sub⟩ := s
  simp only [ConcurrencyController.settle, ConcurrencyController.processQueue]
  split
  · rfl
  · split <;> rfl

/-- `settle` never changes the submission history. -/
theorem settle_submitted (s : ConcurrencyController) (t : Nat) (ok : Bool) :
    (s.settle t ok).submitted = s.submitted := by
  obtain ⟨m, R, Q, St, D, Sub⟩ := s
  simp only [ConcurrencyController.settle, ConcurrencyController.processQueue]
  split
  · rfl
  · split <;> rfl

/-- Settling an in-flight task decreases the number of pending-plus-running
tasks by exactly one (an admission from the queue keeps the sum). -/
theorem settle_measure {s : ConcurrencyController} {t : Nat} (ht : t ∈ s.running) (ok : Bool) :
    (s.settle t ok).queue.length + (s.settle t ok).running.length + 1 =
      s.queue.length + s.running.length := by
  obtain ⟨m, R, Q, St, D, Sub⟩ := s
  simp only at ht
  have hlen : (R.erase t).length + 1 = R.length := List.length_erase_add_one ht
  simp only [ConcurrencyController.settle, ConcurrencyController.processQueue]
  by_cases hfull : m ≤ (R.erase t).length
  · simp only [hfull, if_true]
    omega
  · cases Q with
    | nil =>
      simp only [hfull, if_false, List.length_nil]
      omega
    | cons q qs =>
      simp only [hfull, if_false, List.length_append, List.length_cons, List.length_nil]
      omega

/-- Liveness of the controller: from any state satisfying the invariant,
with a positive concurrency limit, repeatedly letting the oldest
in-flight task settle completes every submitted task. -/
theorem drain_completes :
    ∀ (fuel : Nat) (s : ConcurrencyController), CCInv s → 1 ≤ s.maxConcurrent →
      s.queue.length + s.running.length ≤ fuel →
      ((s.drain fuel).done).Perm s.submitted := by
  intro fuel
  induction fuel with
  | zero =>
    intro s hinv hm hle
    have hq : s.queue = [] := List.length_eq_zero.mp (by omega)
    have hr : s.running = [] := List.length_eq_zero.mp (by omega)
    have h3 := hinv.2.2.1
    have h4 := hinv.2.2.2
    rw [hq, List.append_nil] at h3
    rw [hr, List.append_nil] at h4
    simpa [ConcurrencyController.drain, h3] using h4
  | succ f ih =>
    intro s hinv hm hle
    cases hr : s.running with
    | nil =>
      have hq : s.queue = [] := by
        cases hq : s.queue with
        | nil => rfl
        | cons a l =>
          have h2 := hinv.2.1 (by simp [hq])
          rw [hr] at h2
          simp only [List.length_nil] at h2
          omega
      have h3 := hinv.2.2.1
      have h4 := hinv.2.2.2
      rw [hq, List.append_nil] at h3
      rw [hr, List.append_nil] at h4
      simpa [ConcurrencyController.drain, hr, h3] using h4
    | cons t rest =>
      have ht : t ∈ s.running := by
        rw [hr]
        exact List.mem_cons_self t rest
      have hinv' := CCInv_settle hinv ht true
      have hm' : 1 ≤ (s.settle t true).maxConcurrent := by
        rw [settle_max]
        exact hm
      have hmeas := settle_measure ht true
      have hle' : (s.settle t true).queue.length + (s.settle t true).running.length ≤ f := by
        omega
      have hrec := ih (s.settle t true) hinv' hm' hle'
      rw [settle_submitted] at hrec
      simpa [ConcurrencyController.drain, hr] using hrec

/-- C1: in every state of the controller reachable by any interleaving of
submissions and task settlements, (a) the number of in-flight tasks never
exceeds `maxConcurrent`; (b) the tasks admitted to execution so far,
followed by the still-queued tasks, are exactly the submissions in
submission order — admission is FIFO; (c) the scheduling effect of a task
settling is identical whether the task succeeded or failed, so one task's
failure never blocks the admission of queued siblings; and (d) with a
positive limit, letting every in-flight task settle in turn completes
every submitted task — none is dropped. -/
theorem concurrency_controller_correct (s : ConcurrencyController) (h : CCReach s) :
    s.running.length ≤ s.maxConcurrent ∧
    s.started ++ s.queue = s.submitted ∧
    (∀ (t : Nat) (ok okk : Bool), s.settle t ok = s.settle t okk) ∧
    (1 ≤ s.maxConcurrent →
      ((s.drain (s.queue.length + s.running.length)).done).Perm s.submitted) := by
  have hinv := CCReach_inv h
  exact ⟨hinv.1, hinv.2.2.1, fun _ _ _ => rfl,
    fun hm => drain_completes (s.queue.length + s.running.length) s hinv hm le_rfl⟩

/-- Witness for `concurrency_controller_correct`: with limit 1, submit
task 7 then task 8; the second is queued, the in-flight count stays at 1,
admission order is the submission order, and draining completes both. -/
theorem concurrency_controller_correct_witness :
    ((((ConcurrencyController.init 1).execute 7).execute 8).running.length ≤ 1) ∧
    ((((ConcurrencyController.init 1).execute 7).execute 8).started ++
      (((ConcurrencyController.init 1).execute 7).execute 8).queue = [7, 8]) ∧
    (((((ConcurrencyController.init 1).execute 7).execute 8).drain 2).done).Perm [7, 8] := by
  have h := concurrency_controller_correct (((ConcurrencyController.init 1).execute 7).execute 8)
    (CCReach.exec 8 (CCReach.exec 7 (CCReach.init 1)))
  exact ⟨h.1, h.2.1, h.2.2.2 (by decide)⟩

end AutoKick
